import Mathlib

set_option maxRecDepth 4000

/-!
Verification of the Open Graph metadata extraction core of tally-app
(src/src-tauri/src/lib.rs).

Rust strings are UTF-8 byte sequences, and every operation the source uses
(`find`, `rfind`, slicing, `len`, `replace`, `trim`, `starts_with`,
`trim_start_matches`, `trim_end_matches`) works on byte indices.  We embed a
Rust `&str` as a `List Nat` of its bytes.  ASCII literals are written with
`strB`, which maps each character of a Lean string literal to its code point
(all literals in the source are ASCII, so code point = byte).

All definitions are executable and kernel-reducible, so concrete runs are
settled with `decide` or `rfl`.
-/

/-- Byte list of an ASCII string literal. -/
def strB (s : String) : List Nat := s.toList.map Char.toNat

/-- Boolean prefix test on byte lists (Rust `str::starts_with` has the
arguments the other way around, see `startsWithB`). -/
def isPrefixB : List Nat → List Nat → Bool
  | [], _ => true
  | _ :: _, [] => false
  | a :: p, b :: s => a == b && isPrefixB p s

/-- Rust `s.starts_with(p)`. -/
def startsWithB (s p : List Nat) : Bool := isPrefixB p s

/-- Rust `s.find(pat)`: byte index of the first occurrence of `pat` in `s`.
For valid UTF-8 data byte-level substring search agrees with Rust, because
UTF-8 is self-synchronizing.  A single-character Rust pattern such as
`find('>')` is the one-byte list `[62]`. -/
def findSub (pat : List Nat) : List Nat → Option Nat
  | [] => if isPrefixB pat [] then some 0 else none
  | c :: rest =>
    if isPrefixB pat (c :: rest) then some 0
    else (findSub pat rest).map (· + 1)

/-- Rust `s.rfind(pat)`: byte index of the last occurrence of `pat` in `s`. -/
def rfindSub (pat : List Nat) : List Nat → Option Nat
  | [] => if isPrefixB pat [] then some 0 else none
  | c :: rest =>
    match rfindSub pat rest with
    | some i => some (i + 1)
    | none => if isPrefixB pat (c :: rest) then some 0 else none

/-- Rust slice `&s[a..b]` (indices assumed in range; the range checks and the
char-boundary panic are modelled separately by `sliceChecked`). -/
def sliceB (s : List Nat) (a b : Nat) : List Nat := (s.drop a).take (b - a)

/-- Rust `str::is_char_boundary`: index 0 and the length are boundaries, any
other index is a boundary exactly when the byte there is not a UTF-8
continuation byte (that is, it is below 0x80 or at least 0xC0). -/
def isCharBoundary (s : List Nat) (i : Nat) : Bool :=
  if i = 0 then true
  else
    match s.get? i with
    | none => i == s.length
    | some b => b < 128 || 192 ≤ b

/-- Rust slice `&s[a..b]` with the checks Rust performs: `none` models a
panic (index out of range or not on a character boundary). -/
def sliceChecked (s : List Nat) (a b : Nat) : Option (List Nat) :=
  if a ≤ b ∧ b ≤ s.length ∧ isCharBoundary s a = true ∧ isCharBoundary s b = true
  then some (sliceB s a b) else none

/-- Rust `s.trim_start_matches(c)` for a single character `c`. -/
def trimStartMatches (c : Nat) (s : List Nat) : List Nat :=
  s.dropWhile (· == c)

/-- Rust `s.trim_end_matches(c)` for a single character `c`: removes the
maximal run of trailing `c` bytes. -/
def trimEndMatches (c : Nat) : List Nat → List Nat
  | [] => []
  | b :: rest =>
    let r := trimEndMatches c rest
    if r = [] ∧ b = c then [] else b :: r

/-- ASCII whitespace (Rust `char::is_whitespace` restricted to ASCII; the
source only ever trims around `<title>` text and every claim instance is
ASCII). -/
def isWsB (b : Nat) : Bool :=
  b == 9 || b == 10 || b == 11 || b == 12 || b == 13 || b == 32

/-- Rust `str::trim`. -/
def trimB (s : List Nat) : List Nat :=
  ((s.dropWhile isWsB).reverse.dropWhile isWsB).reverse

/-- One left-to-right pass of Rust `String::replace(pat, rep)`, driven by a
fuel argument so that the definition is structural and kernel-reducible.
With fuel `s.length` and a nonempty pattern the fuel never runs out before
the input does, so `replaceB` below is exactly the Rust semantics: scan left
to right, replace each non-overlapping occurrence. -/
def replaceFuel (pat rep : List Nat) : Nat → List Nat → List Nat
  | 0, s => s
  | _ + 1, [] => []
  | n + 1, c :: rest =>
    if isPrefixB pat (c :: rest) then
      rep ++ replaceFuel pat rep n (List.drop (pat.length - 1) rest)
    else
      c :: replaceFuel pat rep n rest

/-- Rust `s.replace(pat, rep)` (for the nonempty patterns the source uses). -/
def replaceB (pat rep s : List Nat) : List Nat :=
  replaceFuel pat rep s.length s

/-- Number of UTF-8 characters encoded by a byte list: count the bytes that
are not continuation bytes. -/
def utf8Len (s : List Nat) : Nat :=
  (s.filter (fun b => b < 128 || 192 ≤ b)).length

/-! ## Translation of the source functions (src/src-tauri/src/lib.rs) -/

/-- Source `html_escape_decode` (lib.rs lines 197 to 205): seven chained
whole-string `replace` passes, applied in the source order. -/
def html_escape_decode (s : List Nat) : List Nat :=
  replaceB (strB "&apos;") [39]
    (replaceB (strB "&#x27;") [39]
      (replaceB (strB "&#39;") [39]
        (replaceB (strB "&quot;") [34]
          (replaceB (strB "&gt;") [62]
            (replaceB (strB "&lt;") [60]
              (replaceB (strB "&amp;") [38] s))))))

/-- Window start used by `extract_og` (lib.rs line 121):
`if meta_start > 200 { meta_start - 200 } else { 0 }`. -/
def windowStartOg (m : Nat) : Nat := if 200 < m then m - 200 else 0

/-- Window end used by `extract_og` (lib.rs line 122):
`min(meta_start + 300, html.len())`. -/
def windowEndOg (html : List Nat) (m : Nat) : Nat :=
  min (m + 300) html.length

/-- Source `extract_og` (lib.rs lines 116 to 144). -/
def extract_og (html prop : List Nat) : Option (List Nat) :=
  let pattern := strB "property=\"" ++ prop ++ [34]
  match findSub pattern html with
  | none => none
  | some meta_start =>
    let window_start := windowStartOg meta_start
    let window_end := windowEndOg html meta_start
    let window := sliceB html window_start window_end
    match rfindSub (strB "<meta") window with
    | none => none
    | some tag_start =>
      let tag_content := window.drop tag_start
      match findSub [62] tag_content with
      | none => none
      | some tag_end =>
        let tag := tag_content.take (tag_end + 1)
        match findSub (strB "content=\"") tag with
        | none => none
        | some content_start =>
          let value_start := content_start + 9
          match findSub [34] (tag.drop value_start) with
          | none => none
          | some value_end =>
            let value := sliceB tag value_start (value_start + value_end)
            if value ≠ [] then some (html_escape_decode value) else none

/-- The internal tag choice of `extract_og` (lib.rs lines 119 to 127):
the position of the `property="<name>"` match together with the absolute
start position of the `<meta` token the backward window scan selects.
This is a projection of the same computation `extract_og` performs, used to
state claims about which enclosing tag is chosen. -/
def og_tag_choice (html prop : List Nat) : Option (Nat × Nat) :=
  let pattern := strB "property=\"" ++ prop ++ [34]
  match findSub pattern html with
  | none => none
  | some meta_start =>
    let window_start := windowStartOg meta_start
    let window_end := windowEndOg html meta_start
    let window := sliceB html window_start window_end
    (rfindSub (strB "<meta") window).map (fun t => (meta_start, window_start + t))

/-- Source `extract_title` (lib.rs lines 147 to 160). -/
def extract_title (html : List Nat) : Option (List Nat) :=
  match findSub (strB "<title") html with
  | none => none
  | some start =>
    match findSub [62] (html.drop start) with
    | none => none
    | some tag_end =>
      let content_start := start + tag_end + 1
      match findSub (strB "</title>") (html.drop content_start) with
      | none => none
      | some e =>
        let title := trimB (sliceB html content_start (content_start + e))
        if title ≠ [] then some (html_escape_decode title) else none

/-- The href-locating part of one loop iteration of `extract_favicon`
(lib.rs lines 166 to 176): find the pattern, open the 300-before /
100-after window, take the last `<link` in the window, and read the
`href="..."` value.  Returns the raw (possibly relative) href. -/
def locate_href (html pat : List Nat) : Option (List Nat) :=
  match findSub pat html with
  | none => none
  | some pos =>
    let window_start := if 300 < pos then pos - 300 else 0
    let window_end := min (pos + 100) html.length
    let window := sliceB html window_start window_end
    match rfindSub (strB "<link") window with
    | none => none
    | some tag_start =>
      let tag_content := window.drop tag_start
      match findSub (strB "href=\"") tag_content with
      | none => none
      | some href_start =>
        let value_start := href_start + 6
        match findSub [34] (tag_content.drop value_start) with
        | none => none
        | some value_end => some (sliceB tag_content value_start (value_start + value_end))

/-- One loop iteration of `extract_favicon` (lib.rs lines 166 to 189):
locate the href for one pattern and, when found, resolve it with the three
branches of lines 177 to 186. -/
def tryPat (html base_url pat : List Nat) : Option (List Nat) :=
  match locate_href html pat with
  | none => none
  | some href =>
    if startsWithB href (strB "http") then some href
    else if startsWithB href (strB "//") then some (strB "https:" ++ href)
    else some (trimEndMatches 47 base_url ++ [47] ++ trimStartMatches 47 href)

/-- The `for pattern in ...` loop of `extract_favicon` with its fallback
(lib.rs lines 165 to 194): a failed iteration falls through to the next
pattern; when every iteration fails the synthesized `/favicon.ico` path is
returned. -/
def favicon_try (html base_url : List Nat) : List (List Nat) → Option (List Nat)
  | [] => some (trimEndMatches 47 base_url ++ strB "/favicon.ico")
  | pat :: rest =>
    match tryPat html base_url pat with
    | some v => some v
    | none => favicon_try html base_url rest

/-- The fixed pattern list of `extract_favicon` (lib.rs line 165). -/
def faviconPatterns : List (List Nat) :=
  [strB "rel=\"icon\"", strB "rel=\"shortcut icon\"", strB "rel=\"apple-touch-icon\""]

/-- Source `extract_favicon` (lib.rs lines 163 to 195). -/
def extract_favicon (html base_url : List Nat) : Option (List Nat) :=
  favicon_try html base_url faviconPatterns

/-- Source `get_base_url` (lib.rs lines 207 to 214). -/
def get_base_url (url : List Nat) : List Nat :=
  match findSub (strB "://") url with
  | none => url
  | some scheme_end =>
    match findSub [47] (url.drop (scheme_end + 3)) with
    | none => url
    | some path_start => url.take (scheme_end + 3 + path_start)

/-- The body truncation of `fetch_og_metadata` (lib.rs lines 242 to 246):
`if html.len() > 20_000 { &html[..20_000] } else { &html }`, without the
char-boundary panic (see `truncateChecked`). -/
def truncateHtml (html : List Nat) : List Nat :=
  if 20000 < html.length then html.take 20000 else html

/-- The body truncation with the checks Rust performs on the slice
`&html[..20_000]`: `none` models a panic. -/
def truncateChecked (html : List Nat) : Option (List Nat) :=
  if 20000 < html.length then sliceChecked html 0 20000 else some html

/-- The image-resolving closure of `fetch_og_metadata` (lib.rs lines 251 to
261), with `base_url` as an explicit argument. -/
def resolve_og_image (base_url img : List Nat) : List Nat :=
  if startsWithB img (strB "http") then img
  else if startsWithB img (strB "//") then strB "https:" ++ img
  else trimEndMatches 47 base_url ++ [47] ++ trimStartMatches 47 img

/-- Output structure `OgMetadata` (lib.rs lines 105 to 113). -/
structure OgMetadata where
  title : Option (List Nat)
  description : Option (List Nat)
  image : Option (List Nat)
  site_name : Option (List Nat)
  favicon : Option (List Nat)
  url : List Nat
deriving DecidableEq, Repr

/-- The pure extraction-and-assembly part of `fetch_og_metadata` (lib.rs
lines 241 to 270): everything after the HTTP fetch and body read have
succeeded, given the request `url` and the response body `html`. -/
def fetch_og_metadata (url html : List Nat) : OgMetadata :=
  let html_head := truncateHtml html
  let base_url := get_base_url url
  let og_image := (extract_og html_head (strB "og:image")).map
    (fun img => resolve_og_image base_url img)
  { title := (extract_og html_head (strB "og:title")).orElse
      (fun _ => extract_title html_head)
    description := extract_og html_head (strB "og:description")
    image := og_image
    site_name := extract_og html_head (strB "og:site_name")
    favicon := extract_favicon html_head base_url
    url := url }

/-! ## Checked variants modelling the window-slice panics

The only slice in `extract_og` and `extract_favicon` whose indices are not
known to be character boundaries is the search-window slice: every later
index is the match position of an ASCII pattern, or such a position moved
across ASCII text, hence a boundary in valid UTF-8.  The checked variants
below perform exactly that one slice through `sliceChecked`; an outer
`none` models the Rust panic, `some r` a completed run with result `r`. -/

/-- The part of `extract_og` after the window slice (lib.rs lines 126 to
141), on an already-sliced window. -/
def og_from_window (window : List Nat) : Option (List Nat) :=
  match rfindSub (strB "<meta") window with
  | none => none
  | some tag_start =>
    let tag_content := window.drop tag_start
    match findSub [62] tag_content with
    | none => none
    | some tag_end =>
      let tag := tag_content.take (tag_end + 1)
      match findSub (strB "content=\"") tag with
      | none => none
      | some content_start =>
        let value_start := content_start + 9
        match findSub [34] (tag.drop value_start) with
        | none => none
        | some value_end =>
          let value := sliceB tag value_start (value_start + value_end)
          if value ≠ [] then some (html_escape_decode value) else none

/-- `extract_og` with the char-boundary checks Rust performs on the window
slice `&html[window_start..window_end]` (lib.rs line 123). -/
def extract_og_checked (html prop : List Nat) : Option (Option (List Nat)) :=
  let pattern := strB "property=\"" ++ prop ++ [34]
  match findSub pattern html with
  | none => some none
  | some meta_start =>
    match sliceChecked html (windowStartOg meta_start) (windowEndOg html meta_start) with
    | none => none
    | some window => some (og_from_window window)

/-- The part of one `extract_favicon` iteration after the window slice
(lib.rs lines 171 to 176), on an already-sliced window: the raw href. -/
def href_from_window (window : List Nat) : Option (List Nat) :=
  match rfindSub (strB "<link") window with
  | none => none
  | some tag_start =>
    let tag_content := window.drop tag_start
    match findSub (strB "href=\"") tag_content with
    | none => none
    | some href_start =>
      let value_start := href_start + 6
      match findSub [34] (tag_content.drop value_start) with
      | none => none
      | some value_end => some (sliceB tag_content value_start (value_start + value_end))

/-- `locate_href` with the char-boundary checks Rust performs on the
window slice (lib.rs line 169). -/
def locate_href_checked (html pat : List Nat) : Option (Option (List Nat)) :=
  match findSub pat html with
  | none => some none
  | some pos =>
    match sliceChecked html (if 300 < pos then pos - 300 else 0)
        (min (pos + 100) html.length) with
    | none => none
    | some window => some (href_from_window window)

/-- One `extract_favicon` iteration with the slice checks: `none` is a
panic, `some none` a failed iteration, `some (some v)` a resolved href. -/
def tryPat_checked (html base_url pat : List Nat) : Option (Option (List Nat)) :=
  (locate_href_checked html pat).map (fun oh =>
    match oh with
    | none => none
    | some href =>
      if startsWithB href (strB "http") then some href
      else if startsWithB href (strB "//") then some (strB "https:" ++ href)
      else some (trimEndMatches 47 base_url ++ [47] ++ trimStartMatches 47 href))

/-- The favicon pattern loop with the slice checks: a panic in an
iteration aborts the whole extraction, a failed iteration falls through. -/
def favicon_try_checked (html base_url : List Nat) :
    List (List Nat) → Option (Option (List Nat))
  | [] => some (some (trimEndMatches 47 base_url ++ strB "/favicon.ico"))
  | pat :: rest =>
    match tryPat_checked html base_url pat with
    | none => none
    | some (some v) => some (some v)
    | some none => favicon_try_checked html base_url rest

/-- `extract_favicon` with the char-boundary checks Rust performs. -/
def extract_favicon_checked (html base_url : List Nat) : Option (Option (List Nat)) :=
  favicon_try_checked html base_url faviconPatterns


/-! ## Spec-side definitions

These definitions transcribe sentences of the specification (sections 4.1
and 4.2) rather than the source, and are compared with the source
translations in the claim theorems. -/

/-- Spec 4.1, locate title text: first `<title` tag-open, its first `>`,
the first subsequent `</title>`; the text strictly between, trimmed, empty
counting as not found, entities decoded. -/
def titleSpec (html : List Nat) : Option (List Nat) :=
  (findSub (strB "<title") html).bind fun s =>
    (findSub [62] (html.drop s)).bind fun e1 =>
      (findSub (strB "</title>") (html.drop (s + e1 + 1))).bind fun e2 =>
        let t := trimB (sliceB html (s + e1 + 1) (s + e1 + 1 + e2))
        if t = [] then none else some (html_escape_decode t)

/-- Spec 4.2, the origin of a request URL: the substring up to but not
including the first `/` after the `://` marker, or the whole URL if no such
`/` exists. -/
def originSpec (url : List Nat) : List Nat :=
  match findSub (strB "://") url with
  | none => url
  | some k =>
    (((findSub [47] (url.drop (k + 3))).map
      (fun j => url.take (k + 3 + j)))).getD url

/-- Spec 4.2, the URL absolutization rule: keep values starting with
`http`; prefix scheme-relative values with `https:`; otherwise strip a
trailing `/` run from the origin and a leading `/` run from the value and
join with a single `/`. -/
def absolutizeSpec (url href : List Nat) : List Nat :=
  if startsWithB href (strB "http") then href
  else if startsWithB href (strB "//") then strB "https:" ++ href
  else trimEndMatches 47 (originSpec url) ++ [47] ++ trimStartMatches 47 href

/-- A byte that may occur in a URI scheme (RFC 3986: letters, digits, plus,
minus, dot). -/
def isSchemeByte (b : Nat) : Bool :=
  (65 ≤ b && b ≤ 90) || (97 ≤ b && b ≤ 122) || (48 ≤ b && b ≤ 57) ||
    b == 43 || b == 45 || b == 46

/-- Whether a byte string begins with a URI scheme: a letter starting a
run of scheme bytes that is immediately followed by a colon. -/
def beginsWithScheme (s : List Nat) : Bool :=
  match s with
  | [] => false
  | c :: _ =>
    ((65 ≤ c && c ≤ 90) || (97 ≤ c && c ≤ 122)) &&
      isPrefixB (s.takeWhile isSchemeByte ++ [58]) s

/-- The canonical meta tag head `<meta property="og:title" content="` used
to state the corrected claim C1 (35 bytes). -/
def ogHead : List Nat := strB "<meta property=\"og:title\" content=\""

/-- A canonical Open Graph title tag with content `X`. -/
def ogTag (X : List Nat) : List Nat := ogHead ++ (X ++ strB "\">")

/-- A body of `n` copies of the two-byte UTF-8 character 0xC3 0xA9
(LATIN SMALL LETTER E WITH ACUTE). -/
def eBody : Nat → List Nat
  | 0 => []
  | n + 1 => 195 :: 169 :: eBody n

/-! ## Library lemmas about the byte-string primitives -/

theorem isPrefixB_nil (s : List Nat) : isPrefixB [] s = true := rfl

theorem isPrefixB_iff_append : ∀ {p s : List Nat},
    isPrefixB p s = true ↔ ∃ t, s = p ++ t
  | [], s => by simp [isPrefixB]
  | _ :: _, [] => by simp [isPrefixB]
  | a :: p, b :: s => by
    simp only [isPrefixB, Bool.and_eq_true, beq_iff_eq]
    constructor
    · rintro ⟨rfl, h⟩
      obtain ⟨t, rfl⟩ := isPrefixB_iff_append.mp h
      exact ⟨t, rfl⟩
    · rintro ⟨t, ht⟩
      injection ht with h1 h2
      exact ⟨h1.symm, isPrefixB_iff_append.mpr ⟨t, h2⟩⟩

theorem isPrefixB_refl (p : List Nat) : isPrefixB p p = true :=
  isPrefixB_iff_append.mpr ⟨[], (List.append_nil p).symm⟩

theorem isPrefixB_length_le {p s : List Nat} (h : isPrefixB p s = true) :
    p.length ≤ s.length := by
  obtain ⟨t, rfl⟩ := isPrefixB_iff_append.mp h
  simp

theorem isPrefixB_append_right {p l : List Nat} (m : List Nat)
    (h : isPrefixB p l = true) : isPrefixB p (l ++ m) = true := by
  obtain ⟨t, rfl⟩ := isPrefixB_iff_append.mp h
  exact isPrefixB_iff_append.mpr ⟨t ++ m, by simp⟩

theorem isPrefixB_append_of_le {p l : List Nat} (m : List Nat)
    (h : p.length ≤ l.length) : isPrefixB p (l ++ m) = isPrefixB p l := by
  cases h1 : isPrefixB p l with
  | true => exact isPrefixB_append_right m h1
  | false =>
    cases h2 : isPrefixB p (l ++ m) with
    | false => rfl
    | true =>
      exfalso
      obtain ⟨t, ht⟩ := isPrefixB_iff_append.mp h2
      have hp : p = l.take p.length := by
        have := congrArg (List.take p.length) ht
        rw [List.take_append_of_le_length h, List.take_left] at this
        exact this.symm
      have : isPrefixB p l = true := by
        rw [hp]
        exact isPrefixB_iff_append.mpr ⟨l.drop p.length, (List.take_append_drop _ l).symm⟩
      rw [h1] at this
      cases this

theorem isPrefixB_of_take {p l : List Nat} {k : Nat}
    (h : isPrefixB p (l.take k) = true) : isPrefixB p l = true := by
  have := isPrefixB_append_right (l.drop k) h
  rwa [List.take_append_drop] at this

theorem isPrefixB_take {p l : List Nat} {k : Nat}
    (h : isPrefixB p l = true) (hk : p.length ≤ k) :
    isPrefixB p (l.take k) = true := by
  obtain ⟨t, rfl⟩ := isPrefixB_iff_append.mp h
  rw [List.take_append_eq_append_take, List.take_of_length_le hk]
  exact isPrefixB_append_right _ (isPrefixB_refl p)

theorem isPrefixB_cons_head {a : Nat} {p l : List Nat}
    (h : isPrefixB (a :: p) l = true) : l.head? = some a := by
  obtain ⟨t, rfl⟩ := isPrefixB_iff_append.mp h
  rfl

theorem isPrefixB_cons_nil (a : Nat) (p : List Nat) :
    isPrefixB (a :: p) [] = false := rfl

theorem findSub_eq_some_iff : ∀ {pat s : List Nat} {i : Nat},
    findSub pat s = some i ↔
      (isPrefixB pat (s.drop i) = true ∧
        ∀ j, j < i → isPrefixB pat (s.drop j) = false)
  | pat, [], i => by
    by_cases h : isPrefixB pat [] = true
    · simp only [findSub, if_pos h, Option.some.injEq, List.drop_nil]
      constructor
      · rintro rfl
        exact ⟨h, fun j hj => absurd hj (by omega)⟩
      · rintro ⟨-, hmin⟩
        by_contra hne
        have hpos : 0 < i := by omega
        have := hmin 0 hpos
        rw [this] at h
        cases h
    · simp only [findSub, if_neg h, List.drop_nil]
      constructor
      · intro hh; cases hh
      · rintro ⟨hpre, -⟩
        exact absurd hpre h
  | pat, c :: rest, i => by
    by_cases h : isPrefixB pat (c :: rest) = true
    · simp only [findSub, if_pos h, Option.some.injEq]
      constructor
      · rintro rfl
        exact ⟨by simpa using h, fun j hj => absurd hj (by omega)⟩
      · rintro ⟨-, hmin⟩
        rcases Nat.eq_zero_or_pos i with rfl | hpos
        · rfl
        · have := hmin 0 hpos
          rw [List.drop_zero] at this
          rw [this] at h
          cases h
    · simp only [findSub, if_neg h, Option.map_eq_some']
      constructor
      · rintro ⟨i2, hfind, rfl⟩
        obtain ⟨hpre, hmin⟩ := findSub_eq_some_iff.mp hfind
        refine ⟨by simpa using hpre, ?_⟩
        intro j hj
        cases j with
        | zero => simpa using h
        | succ j2 =>
          rw [List.drop_succ_cons]
          exact hmin j2 (by omega)
      · rintro ⟨hpre, hmin⟩
        cases i with
        | zero =>
          rw [List.drop_zero] at hpre
          exact absurd hpre h
        | succ i2 =>
          refine ⟨i2, findSub_eq_some_iff.mpr ⟨by simpa using hpre, ?_⟩, rfl⟩
          intro j hj
          have := hmin (j + 1) (by omega)
          rwa [List.drop_succ_cons] at this

theorem findSub_eq_none_iff : ∀ {pat s : List Nat},
    findSub pat s = none ↔ ∀ j, isPrefixB pat (s.drop j) = false
  | pat, [] => by
    by_cases h : isPrefixB pat [] = true
    · simp only [findSub, if_pos h, List.drop_nil]
      constructor
      · intro hh; cases hh
      · intro hall
        have := hall 0
        rw [this] at h
        cases h
    · simp only [findSub, if_neg h, List.drop_nil, true_iff]
      intro j
      exact (Bool.not_eq_true _).mp h
  | pat, c :: rest => by
    by_cases h : isPrefixB pat (c :: rest) = true
    · simp only [findSub, if_pos h]
      constructor
      · intro hh; cases hh
      · intro hall
        have := hall 0
        rw [List.drop_zero] at this
        rw [this] at h
        cases h
    · simp only [findSub, if_neg h, Option.map_eq_none']
      rw [findSub_eq_none_iff]
      constructor
      · intro hall j
        cases j with
        | zero => simpa using h
        | succ j2 =>
          rw [List.drop_succ_cons]
          exact hall j2
      · intro hall j
        have := hall (j + 1)
        rwa [List.drop_succ_cons] at this

theorem rfindSub_some_prefix : ∀ {pat s : List Nat} {i : Nat},
    rfindSub pat s = some i → isPrefixB pat (s.drop i) = true
  | pat, [], i => by
    by_cases h : isPrefixB pat [] = true
    · simp only [rfindSub, if_pos h, Option.some.injEq]
      rintro rfl
      simpa using h
    · simp only [rfindSub, if_neg h]
      intro hh; cases hh
  | pat, c :: rest, i => by
    cases hr : rfindSub pat rest with
    | some i2 =>
      simp only [rfindSub, hr, Option.some.injEq]
      rintro rfl
      rw [List.drop_succ_cons]
      exact rfindSub_some_prefix hr
    | none =>
      by_cases h : isPrefixB pat (c :: rest) = true
      · simp only [rfindSub, hr, if_pos h, Option.some.injEq]
        rintro rfl
        simpa using h
      · simp only [rfindSub, hr, if_neg h]
        intro hh; cases hh

theorem rfindSub_eq_none_iff : ∀ {pat s : List Nat}, pat ≠ [] →
    (rfindSub pat s = none ↔ ∀ j, isPrefixB pat (s.drop j) = false)
  | [], _, hpat => absurd rfl hpat
  | a :: p, [], _ => by
    simp [rfindSub, isPrefixB_cons_nil]
  | a :: p, c :: rest, hpat => by
    cases hr : rfindSub (a :: p) rest with
    | some i2 =>
      simp only [rfindSub, hr]
      constructor
      · intro hh; cases hh
      · intro hall
        have hpre := rfindSub_some_prefix hr
        have := hall (i2 + 1)
        rw [List.drop_succ_cons] at this
        rw [this] at hpre
        cases hpre
    | none =>
      have hrest := (rfindSub_eq_none_iff hpat).mp hr
      by_cases h : isPrefixB (a :: p) (c :: rest) = true
      · simp only [rfindSub, hr, if_pos h]
        constructor
        · intro hh; cases hh
        · intro hall
          have := hall 0
          rw [List.drop_zero] at this
          rw [this] at h
          cases h
      · simp only [rfindSub, hr, if_neg h, true_iff]
        intro j
        cases j with
        | zero =>
          rw [List.drop_zero]
          exact (Bool.not_eq_true _).mp h
        | succ j2 =>
          rw [List.drop_succ_cons]
          exact hrest j2

theorem rfindSub_eq_some_iff : ∀ {pat s : List Nat} {i : Nat}, pat ≠ [] →
    (rfindSub pat s = some i ↔
      (isPrefixB pat (s.drop i) = true ∧
        ∀ j, i < j → isPrefixB pat (s.drop j) = false))
  | [], _, _, hpat => absurd rfl hpat
  | a :: p, [], i, _ => by
    simp [rfindSub, isPrefixB_cons_nil]
  | a :: p, c :: rest, i, hpat => by
    cases hr : rfindSub (a :: p) rest with
    | some i2 =>
      obtain ⟨hpre2, hmax2⟩ := (rfindSub_eq_some_iff hpat).mp hr
      simp only [rfindSub, hr, Option.some.injEq]
      constructor
      · rintro rfl
        refine ⟨by simpa using hpre2, ?_⟩
        intro j hj
        cases j with
        | zero => omega
        | succ j2 =>
          rw [List.drop_succ_cons]
          exact hmax2 j2 (by omega)
      · rintro ⟨hpre, hmax⟩
        rcases Nat.lt_trichotomy i (i2 + 1) with hlt | heq | hgt
        · exfalso
          have := hmax (i2 + 1) hlt
          rw [List.drop_succ_cons] at this
          rw [this] at hpre2
          cases hpre2
        · exact heq.symm
        · exfalso
          cases i with
          | zero => omega
          | succ i3 =>
            rw [List.drop_succ_cons] at hpre
            have := hmax2 i3 (by omega)
            rw [this] at hpre
            cases hpre
    | none =>
      have hrest := (rfindSub_eq_none_iff hpat).mp hr
      by_cases h : isPrefixB (a :: p) (c :: rest) = true
      · simp only [rfindSub, hr, if_pos h, Option.some.injEq]
        constructor
        · rintro rfl
          refine ⟨by simpa using h, ?_⟩
          intro j hj
          cases j with
          | zero => omega
          | succ j2 =>
            rw [List.drop_succ_cons]
            exact hrest j2
        · rintro ⟨hpre, -⟩
          cases i with
          | zero => rfl
          | succ i2 =>
            rw [List.drop_succ_cons] at hpre
            have := hrest i2
            rw [this] at hpre
            cases hpre
      · simp only [rfindSub, hr, if_neg h]
        constructor
        · intro hh; cases hh
        · rintro ⟨hpre, -⟩
          exfalso
          cases i with
          | zero =>
            rw [List.drop_zero] at hpre
            rw [hpre] at h
            exact h rfl
          | succ i2 =>
            rw [List.drop_succ_cons] at hpre
            have := hrest i2
            rw [this] at hpre
            cases hpre

theorem replaceFuel_id (pat rep : List Nat) :
    ∀ (n : Nat) (s : List Nat),
      (∀ j, isPrefixB pat (s.drop j) = false) → replaceFuel pat rep n s = s
  | 0, _, _ => rfl
  | _ + 1, [], _ => rfl
  | n + 1, c :: rest, h => by
    have h0 := h 0
    rw [List.drop_zero] at h0
    simp only [replaceFuel, h0, Bool.false_eq_true, if_false]
    have : replaceFuel pat rep n rest = rest :=
      replaceFuel_id pat rep n rest (fun j => by
        have := h (j + 1)
        rwa [List.drop_succ_cons] at this)
    rw [this]

theorem replaceB_id {pat s : List Nat} (rep : List Nat)
    (h : findSub pat s = none) : replaceB pat rep s = s :=
  replaceFuel_id pat rep s.length s (findSub_eq_none_iff.mp h)

theorem trimEnd_colon_pre : ∀ (s t : List Nat),
    ∃ u, trimEndMatches 47 ((s ++ [58]) ++ t) = (s ++ [58]) ++ u
  | [], t => by
    refine ⟨trimEndMatches 47 t, ?_⟩
    simp only [List.nil_append, List.cons_append]
    show trimEndMatches 47 (58 :: t) = 58 :: trimEndMatches 47 t
    simp [trimEndMatches]
  | a :: s, t => by
    obtain ⟨u, hu⟩ := trimEnd_colon_pre s t
    refine ⟨u, ?_⟩
    have hne : (s ++ [58]) ++ u ≠ [] := by simp
    show trimEndMatches 47 (a :: ((s ++ [58]) ++ t)) = a :: ((s ++ [58]) ++ u)
    simp only [trimEndMatches, hu]
    rw [if_neg]
    intro hc
    exact hne hc.1

theorem sliceB_drop (s : List Nat) (a b j : Nat) :
    (sliceB s a b).drop j = sliceB s (a + j) (b - a - j + (a + j)) := by
  unfold sliceB
  rw [List.drop_take, List.drop_drop]
  congr 1
  omega

theorem sliceB_drop_le (s : List Nat) (a b j : Nat) (h : a + j ≤ b) :
    (sliceB s a b).drop j = sliceB s (a + j) b := by
  rw [sliceB_drop]
  unfold sliceB
  congr 1
  omega

theorem sliceB_zero (s : List Nat) (b : Nat) : sliceB s 0 b = s.take b := by
  simp [sliceB]

theorem length_sliceB (s : List Nat) (a b : Nat) :
    (sliceB s a b).length = min (b - a) (s.length - a) := by
  simp [sliceB]

theorem sliceB_eq_take_drop (s : List Nat) (a b : Nat) :
    sliceB s a b = (s.drop a).take (b - a) := rfl

theorem eBody_length : ∀ n, (eBody n).length = 2 * n
  | 0 => rfl
  | n + 1 => by
    show (195 :: 169 :: eBody n).length = 2 * (n + 1)
    simp [eBody_length n]
    omega

theorem eBody_take : ∀ (k n : Nat), (eBody n).take (2 * k) = eBody (min k n)
  | 0, n => by simp [eBody]
  | k + 1, 0 => by simp [eBody]
  | k + 1, n + 1 => by
    show (195 :: 169 :: eBody n).take (2 * (k + 1)) = eBody (min (k + 1) (n + 1))
    have h2 : 2 * (k + 1) = 2 * k + 1 + 1 := by omega
    rw [h2, List.take_succ_cons, List.take_succ_cons, eBody_take k n]
    have hmin : min (k + 1) (n + 1) = min k n + 1 := by omega
    rw [hmin]
    rfl

theorem utf8Len_eBody : ∀ n, utf8Len (eBody n) = n
  | 0 => rfl
  | n + 1 => by
    show utf8Len (195 :: 169 :: eBody n) = n + 1
    unfold utf8Len at *
    simp only [List.filter]
    norm_num
    have := utf8Len_eBody n
    unfold utf8Len at this
    omega

theorem drop_append_of_le {a b : List Nat} {k : Nat} (h : a.length ≤ k) :
    (a ++ b).drop k = b.drop (k - a.length) := by
  rw [List.drop_append_eq_append_drop, List.drop_eq_nil_of_le h, List.nil_append]

theorem drop_append_exact {a b : List Nat} : (a ++ b).drop a.length = b :=
  List.drop_left a b

theorem take_append_of_ge {a b : List Nat} {k : Nat} (h : a.length ≤ k) :
    (a ++ b).take k = a ++ b.take (k - a.length) := by
  rw [List.take_append_eq_append_take, List.take_of_length_le h]

theorem get?_append_left {a b : List Nat} {j : Nat} (h : j < a.length) :
    (a ++ b).get? j = a.get? j := by
  simp only [List.get?_eq_getElem?]
  rw [List.getElem?_append, if_pos h]

theorem mem_of_get? {l : List Nat} {j a : Nat} (h : l.get? j = some a) : a ∈ l := by
  rw [List.get?_eq_getElem?] at h
  obtain ⟨hlt, rfl⟩ := List.getElem?_eq_some.mp h
  exact List.getElem_mem hlt

theorem isPrefixB_single_iff {c : Nat} {l : List Nat} {j : Nat} :
    isPrefixB [c] (l.drop j) = true ↔ l.get? j = some c := by
  constructor
  · intro h
    have := isPrefixB_cons_head h
    rwa [List.head?_drop, ← List.get?_eq_getElem?] at this
  · intro h
    rw [List.get?_eq_getElem?] at h
    obtain ⟨hlt, hget⟩ := List.getElem?_eq_some.mp h
    have : l.drop j = c :: l.drop (j + 1) := by
      rw [← hget]
      exact List.drop_eq_getElem_cons hlt
    rw [this]
    simp [isPrefixB]

theorem truncate_eq_take (h : List Nat) : truncateHtml h = h.take 20000 := by
  unfold truncateHtml
  by_cases hl : 20000 < h.length
  · rw [if_pos hl]
  · rw [if_neg hl, List.take_of_length_le (by omega)]

/-! ## Claim theorems -/

/-- C9: `html_escape_decode` replaces exactly the documented escape set
(`&amp;`, `&lt;`, `&gt;`, `&quot;`, the numeric apostrophe forms `&#39;` and
`&#x27;`, `&apos;`) with their literal characters and leaves every other
entity unresolved: a string containing none of the seven escapes is returned
unchanged, each escape alone decodes to its literal character, and
`Caf&eacute; &amp; Bar` decodes to `Caf&eacute; & Bar` with `&eacute;`
untouched. -/
theorem C9_entity_decode :
    (∀ s : List Nat,
        findSub (strB "&amp;") s = none → findSub (strB "&lt;") s = none →
        findSub (strB "&gt;") s = none → findSub (strB "&quot;") s = none →
        findSub (strB "&#39;") s = none → findSub (strB "&#x27;") s = none →
        findSub (strB "&apos;") s = none →
        html_escape_decode s = s)
    ∧ html_escape_decode (strB "&amp;") = [38]
    ∧ html_escape_decode (strB "&lt;") = [60]
    ∧ html_escape_decode (strB "&gt;") = [62]
    ∧ html_escape_decode (strB "&quot;") = [34]
    ∧ html_escape_decode (strB "&#39;") = [39]
    ∧ html_escape_decode (strB "&#x27;") = [39]
    ∧ html_escape_decode (strB "&apos;") = [39]
    ∧ html_escape_decode (strB "Caf&eacute; &amp; Bar") = strB "Caf&eacute; & Bar" := by
  refine ⟨?_, by decide, by decide, by decide, by decide, by decide, by decide,
    by decide, by decide⟩
  intro s h1 h2 h3 h4 h5 h6 h7
  unfold html_escape_decode
  rw [replaceB_id _ h1, replaceB_id _ h2, replaceB_id _ h3, replaceB_id _ h4,
    replaceB_id _ h5, replaceB_id _ h6, replaceB_id _ h7]

/-- Witness for C9: the undocumented entity `&eacute;` contains none of the
seven escapes and is left unchanged by the decoder. -/
theorem C9_witness : html_escape_decode (strB "&eacute;") = strB "&eacute;" :=
  C9_entity_decode.1 (strB "&eacute;") (by decide) (by decide) (by decide)
    (by decide) (by decide) (by decide) (by decide)

/-- C10: because the seven replacements are whole-string passes applied in
sequence, the output of the `&amp;` pass is consumed by the `&lt;` pass:
the doubly escaped input `&amp;lt;` decodes to `<` and not to the literal
text `&lt;`. -/
theorem C10_double_decode :
    html_escape_decode (strB "&amp;lt;") = strB "<"
      ∧ strB "<" ≠ strB "&lt;" :=
  ⟨by decide, by decide⟩

/-- Theorem for C6 (a code bug): the body truncation slice
`&html[..20_000]` of `fetch_og_metadata` is taken at byte offset 20000.
On the UTF-8 body made of 19999 times `a` followed by the two-byte
character 0xC3 0xA9 (20000 characters, 20001 bytes) offset 20000 is not a
character boundary, so the slice panics: the extraction phase is not total,
contradicting the claim that it never errors or panics. -/
theorem C6_truncation_panic :
    truncateChecked (List.replicate 19999 97 ++ [195, 169]) = none := by
  have hlen : (List.replicate 19999 97 ++ ([195, 169] : List Nat)).length = 20001 := by
    rw [List.length_append, List.length_replicate]
    norm_num
  have hget : (List.replicate 19999 97 ++ ([195, 169] : List Nat)).get? 20000 = some 169 := by
    rw [List.get?_eq_getElem?, List.getElem?_append,
      if_neg (by rw [List.length_replicate]; omega), List.length_replicate]
    norm_num
  have hbound : isCharBoundary (List.replicate 19999 97 ++ [195, 169]) 20000 = false := by
    unfold isCharBoundary
    rw [if_neg (by omega), hget]
    decide
  unfold truncateChecked
  rw [if_pos (by rw [hlen]; omega)]
  unfold sliceChecked
  rw [if_neg]
  rintro ⟨-, -, -, h4⟩
  rw [hbound] at h4
  cases h4

/-- Counterexample for C7: the truncation threshold counts bytes, not
characters.  A body of 25000 copies of the two-byte character 0xC3 0xA9
has 25000 characters; truncation keeps its first 20000 bytes, which are
only the first 10000 characters, not the first 20000 characters. -/
theorem C7_counterexample :
    utf8Len (eBody 25000) = 25000
      ∧ truncateHtml (eBody 25000) = eBody 10000
      ∧ utf8Len (truncateHtml (eBody 25000)) = 10000
      ∧ (10000 : Nat) ≠ 20000 := by
  have hlen : (eBody 25000).length = 50000 := by rw [eBody_length]
  have htr : truncateHtml (eBody 25000) = eBody 10000 := by
    unfold truncateHtml
    rw [if_pos (by rw [hlen]; omega)]
    have h20 : (20000 : Nat) = 2 * 10000 := by norm_num
    rw [h20, eBody_take]
    norm_num
  exact ⟨utf8Len_eBody _, htr, by rw [htr, utf8Len_eBody], by omega⟩

/-- C7 as corrected: only the first 20000 BYTES of the response body are
used for all extraction — two bodies agreeing on their first 20000 bytes
yield identical metadata, so in particular a tag whose text begins at or
after byte 20000 is never found in any field. -/
theorem C7_amended (url h1 h2 : List Nat)
    (h : h1.take 20000 = h2.take 20000) :
    fetch_og_metadata url h1 = fetch_og_metadata url h2 := by
  have ht : truncateHtml h1 = truncateHtml h2 := by
    rw [truncate_eq_take, truncate_eq_take, h]
  unfold fetch_og_metadata
  rw [ht]

/-- Witness for C7: an `og:title` meta tag whose text begins at byte 21000
changes nothing — the body with the tag and the body without it produce the
same metadata. -/
theorem C7_amended_witness :
    fetch_og_metadata (strB "u")
        (List.replicate 21000 97 ++ strB "<meta property=\"og:title\" content=\"Z\">")
      = fetch_og_metadata (strB "u") (List.replicate 21000 97) :=
  C7_amended _ _ _ (by
    rw [List.take_append_of_le_length (by rw [List.length_replicate]; omega)])

/-- Counterexample for C3: with the request URL `example.com`, which has no
`://` marker, the assembled favicon URL is `example.com/favicon.ico`, which
does not begin with a URI scheme. -/
theorem C3_counterexample :
    (fetch_og_metadata (strB "example.com") []).favicon
        = some (strB "example.com/favicon.ico")
      ∧ beginsWithScheme (strB "example.com/favicon.ico") = false :=
  ⟨by decide, by decide⟩

/-- Counterexample for C1: the window scan takes the LAST `<meta` in the
window, which can lie after the match.  Here the HTML contains a well-formed
`<meta property="og:title" content="X">` (X nonempty, quote-free, inside the
window), yet `extract_og` returns `none` because a later `<meta` inside the
window hijacks the tag choice; removing that later tag makes the same call
succeed. -/
theorem C1_counterexample :
    extract_og (strB "<meta property=\"og:title\" content=\"X\"><meta charset=\"u\">")
        (strB "og:title") = none
      ∧ extract_og (strB "<meta property=\"og:title\" content=\"X\">")
          (strB "og:title") = some (strB "X") :=
  ⟨by decide, by decide⟩

/-- Counterexample for C5: on this input the `property="og:title"` match is
at byte 6 and the chosen `<meta` token begins at byte 39, after the match —
the backward search is over the whole window, not only the part up to the
match point. -/
theorem C5_counterexample :
    og_tag_choice (strB "<meta property=\"og:title\" content=\"A\"> <meta name=\"n\">")
        (strB "og:title") = some (6, 39)
      ∧ (6 : Nat) < 39 :=
  ⟨by decide, by decide⟩

/-- Counterexample for C8: the first pattern `rel="icon"` matches (at byte
0) but its window contains no `<link`, so the loop falls through and the
lower-priority pattern `rel="shortcut icon"` supplies the result — the first
pattern that matches anywhere does not always win. -/
theorem C8_counterexample :
    findSub (strB "rel=\"icon\"")
        (strB "rel=\"icon\"" ++ List.replicate 95 32
          ++ strB "<link rel=\"shortcut icon\" href=\"/s.ico\">") = some 0
      ∧ tryPat
          (strB "rel=\"icon\"" ++ List.replicate 95 32
            ++ strB "<link rel=\"shortcut icon\" href=\"/s.ico\">")
          (strB "https://b.x") (strB "rel=\"icon\"") = none
      ∧ extract_favicon
          (strB "rel=\"icon\"" ++ List.replicate 95 32
            ++ strB "<link rel=\"shortcut icon\" href=\"/s.ico\">")
          (strB "https://b.x") = some (strB "https://b.x/s.ico") :=
  ⟨by decide, by decide, by decide⟩

/-- C2: the `title` field equals the `og:title` meta content when
`extract_og` finds one, and otherwise falls back to the `<title>` tag text;
both absent gives `None`.  `extract_title` itself agrees with the
spec-level description `titleSpec` (first `<title` tag-open, its first `>`,
the first subsequent `</title>`, the text strictly between, trimmed,
empty-after-trim counting as not found, entities decoded). -/
theorem C2_title_resolution :
    (∀ url html : List Nat,
        (fetch_og_metadata url html).title
          = (extract_og (truncateHtml html) (strB "og:title")).orElse
              (fun _ => extract_title (truncateHtml html)))
    ∧ ∀ html : List Nat, extract_title html = titleSpec html := by
  constructor
  · intro url html
    rfl
  · intro html
    unfold extract_title titleSpec
    cases hf : findSub (strB "<title") html with
    | none => rfl
    | some s =>
      simp only [Option.some_bind]
      cases h1 : findSub [62] (html.drop s) with
      | none => rfl
      | some e1 =>
        simp only [Option.some_bind]
        cases h2 : findSub (strB "</title>") (html.drop (s + e1 + 1)) with
        | none => rfl
        | some e2 =>
          simp only [Option.some_bind]
          by_cases ht : trimB (sliceB html (s + e1 + 1) (s + e1 + 1 + e2)) = []
          · simp [ht]
          · simp [ht]

theorem originSpec_eq_base (url : List Nat) : originSpec url = get_base_url url := by
  unfold originSpec get_base_url
  cases findSub (strB "://") url with
  | none => rfl
  | some k =>
    show (Option.map (fun j => url.take (k + 3 + j)) (findSub [47] (url.drop (k + 3)))).getD url
        = match findSub [47] (url.drop (k + 3)) with
          | none => url
          | some path_start => url.take (k + 3 + path_start)
    cases findSub [47] (url.drop (k + 3)) with
    | none => rfl
    | some j => rfl

/-- C4: both the `og:image` closure and the favicon branches implement the
spec absolutization rule `absolutizeSpec` (keep `http`-prefixed values,
prefix `https:` to scheme-relative values, otherwise join to the origin of
the request URL with exactly one `/`), and the two documented examples
hold. -/
theorem C4_url_absolutization :
    (∀ url href : List Nat,
        resolve_og_image (get_base_url url) href = absolutizeSpec url href)
    ∧ (∀ html pat url v : List Nat, locate_href html pat = some v →
        tryPat html (get_base_url url) pat = some (absolutizeSpec url v))
    ∧ (∀ url : List Nat,
        trimEndMatches 47 (get_base_url url) ++ strB "/favicon.ico"
          = absolutizeSpec url (strB "/favicon.ico"))
    ∧ resolve_og_image (get_base_url (strB "https://ex.com/page")) (strB "/img/x.png")
        = strB "https://ex.com/img/x.png"
    ∧ resolve_og_image (get_base_url (strB "https://ex.com/page")) (strB "//cdn.ex.com/f.ico")
        = strB "https://cdn.ex.com/f.ico" := by
  refine ⟨?_, ?_, ?_, by decide, by decide⟩
  · intro url href
    unfold resolve_og_image absolutizeSpec
    rw [originSpec_eq_base]
  · intro html pat url v hv
    unfold tryPat
    rw [hv]
    unfold absolutizeSpec
    rw [originSpec_eq_base]
    by_cases hc1 : startsWithB v (strB "http") = true
    · simp [hc1]
    · by_cases hc2 : startsWithB v (strB "//") = true
      · simp [hc1, hc2]
      · simp [hc1, hc2]
  · intro url
    unfold absolutizeSpec
    rw [originSpec_eq_base, if_neg (by decide), if_neg (by decide),
      List.append_assoc]
    congr 1

/-- Witness for C4: the favicon branch resolves the relative href `/f.png`
against the origin of `https://ex.com/page` exactly as the spec rule does. -/
theorem C4_witness :
    tryPat (strB "<link rel=\"icon\" href=\"/f.png\">")
        (get_base_url (strB "https://ex.com/page")) (strB "rel=\"icon\"")
      = some (absolutizeSpec (strB "https://ex.com/page") (strB "/f.png")) :=
  C4_url_absolutization.2.1 _ _ _ _ (by decide)

theorem sliceChecked_some {s : List Nat} {a b : Nat} {w : List Nat}
    (h : sliceChecked s a b = some w) : w = sliceB s a b := by
  unfold sliceChecked at h
  split at h
  · exact (Option.some.inj h).symm
  · cases h

theorem locate_href_via_window (html pat : List Nat) :
    locate_href html pat =
      match findSub pat html with
      | none => none
      | some pos =>
        href_from_window (sliceB html (if 300 < pos then pos - 300 else 0)
          (min (pos + 100) html.length)) := rfl

theorem locate_href_checked_eq (html pat : List Nat) :
    locate_href_checked html pat =
      match findSub pat html with
      | none => some none
      | some pos =>
        match sliceChecked html (if 300 < pos then pos - 300 else 0)
            (min (pos + 100) html.length) with
        | none => none
        | some window => some (href_from_window window) := rfl

theorem locate_href_checked_some {html pat : List Nat} {o : Option (List Nat)}
    (h : locate_href_checked html pat = some o) : locate_href html pat = o := by
  rw [locate_href_checked_eq] at h
  rw [locate_href_via_window]
  cases hf : findSub pat html with
  | none =>
    rw [hf] at h
    replace h : (some (none : Option (List Nat))
        : Option (Option (List Nat))) = some o := h
    injection h with h
  | some pos =>
    rw [hf] at h
    replace h : (match sliceChecked html (if 300 < pos then pos - 300 else 0)
          (min (pos + 100) html.length) with
      | none => (none : Option (Option (List Nat)))
      | some window => some (href_from_window window)) = some o := h
    show href_from_window (sliceB html (if 300 < pos then pos - 300 else 0)
        (min (pos + 100) html.length)) = o
    cases hsc : sliceChecked html (if 300 < pos then pos - 300 else 0)
        (min (pos + 100) html.length) with
    | none =>
      rw [hsc] at h
      cases h
    | some w =>
      rw [hsc] at h
      replace h : (some (href_from_window w) : Option (Option (List Nat))) = some o := h
      injection h with h
      rw [← h, sliceChecked_some hsc]

theorem tryPat_checked_bridge {html base pat : List Nat} {o : Option (List Nat)}
    (h : tryPat_checked html base pat = some o) : tryPat html base pat = o := by
  unfold tryPat_checked at h
  rw [Option.map_eq_some'] at h
  obtain ⟨oh, hl, hf⟩ := h
  have hun : locate_href html pat = oh := locate_href_checked_some hl
  rw [← hf]
  unfold tryPat
  rw [hun]

/-- C8 as corrected: the three patterns are tried in the fixed priority
order `rel="icon"`, `rel="shortcut icon"`, `rel="apple-touch-icon"`, each
scanning the whole document; the first pattern whose window yields an href
wins (even when a lower-priority pattern occurs earlier in document order),
while a pattern that matches but yields no href falls through to the next;
when no attempt yields an href — in particular when no pattern matches at
all — the result is `<origin>/favicon.ico`.  Completion is not guaranteed
(the window slice panics when an edge splits a multi-byte character), but
every completed run returns a value, never an absent favicon, and a
completed checked run agrees with the unchecked model. -/
theorem C8_amended (html base : List Nat) :
    (∀ r, extract_favicon_checked html base = some r → r.isSome = true)
    ∧ (∀ r, extract_favicon_checked html base = some r →
        extract_favicon html base = r)
    ∧ (findSub (strB "rel=\"icon\"") html = none →
        findSub (strB "rel=\"shortcut icon\"") html = none →
        findSub (strB "rel=\"apple-touch-icon\"") html = none →
        extract_favicon_checked html base
          = some (some (trimEndMatches 47 base ++ strB "/favicon.ico")))
    ∧ (∀ v, tryPat_checked html base (strB "rel=\"icon\"") = some (some v) →
        extract_favicon_checked html base = some (some v))
    ∧ (∀ v, tryPat_checked html base (strB "rel=\"icon\"") = some none →
        tryPat_checked html base (strB "rel=\"shortcut icon\"") = some (some v) →
        extract_favicon_checked html base = some (some v))
    ∧ (∀ v, tryPat_checked html base (strB "rel=\"icon\"") = some none →
        tryPat_checked html base (strB "rel=\"shortcut icon\"") = some none →
        tryPat_checked html base (strB "rel=\"apple-touch-icon\"") = some (some v) →
        extract_favicon_checked html base = some (some v)) := by
  have hsome : ∀ pats r, favicon_try_checked html base pats = some r →
      r.isSome = true := by
    intro pats
    induction pats with
    | nil =>
      intro r hr
      unfold favicon_try_checked at hr
      injection hr with hr
      cases hr
      rfl
    | cons p rest ih =>
      intro r hr
      unfold favicon_try_checked at hr
      cases htc : tryPat_checked html base p with
      | none =>
        rw [htc] at hr
        cases hr
      | some oh =>
        rw [htc] at hr
        cases oh with
        | none =>
          replace hr : favicon_try_checked html base rest = some r := hr
          exact ih r hr
        | some v =>
          replace hr : (some (some v) : Option (Option (List Nat))) = some r := hr
          injection hr with hr
          cases hr
          rfl
  have hbridge : ∀ pats r, favicon_try_checked html base pats = some r →
      favicon_try html base pats = r := by
    intro pats
    induction pats with
    | nil =>
      intro r hr
      unfold favicon_try_checked at hr
      injection hr with hr
    | cons p rest ih =>
      intro r hr
      unfold favicon_try_checked at hr
      unfold favicon_try
      cases htc : tryPat_checked html base p with
      | none =>
        rw [htc] at hr
        cases hr
      | some oh =>
        rw [htc] at hr
        rw [tryPat_checked_bridge htc]
        cases oh with
        | none =>
          replace hr : favicon_try_checked html base rest = some r := hr
          show favicon_try html base rest = r
          exact ih r hr
        | some v =>
          replace hr : (some (some v) : Option (Option (List Nat))) = some r := hr
          injection hr with hr
  have hnonec : ∀ pat, findSub pat html = none →
      tryPat_checked html base pat = some none := by
    intro pat h
    unfold tryPat_checked locate_href_checked
    rw [h]
    rfl
  refine ⟨hsome _, hbridge _, ?_, ?_, ?_, ?_⟩
  · intro h1 h2 h3
    unfold extract_favicon_checked faviconPatterns
    simp only [favicon_try_checked, hnonec _ h1, hnonec _ h2, hnonec _ h3]
  · intro v hv
    unfold extract_favicon_checked faviconPatterns
    simp only [favicon_try_checked, hv]
  · intro v h1 hv
    unfold extract_favicon_checked faviconPatterns
    simp only [favicon_try_checked, h1, hv]
  · intro v h1 h2 hv
    unfold extract_favicon_checked faviconPatterns
    simp only [favicon_try_checked, h1, h2, hv]

/-- Witness for C8: a document where the lower-priority
`rel="apple-touch-icon"` link comes first in document order, yet the
higher-priority `rel="icon"` link wins; the run completes (all windows on
character boundaries) and returns the resolved icon href. -/
theorem C8_amended_witness :
    extract_favicon_checked
        (strB "<link rel=\"apple-touch-icon\" href=\"/a.png\"><link rel=\"icon\" href=\"/i.png\">")
        (strB "https://w.x")
      = some (some (strB "https://w.x/i.png")) :=
  (C8_amended _ _).2.2.2.1 _ (by decide)


theorem og_tag_choice_eq (html prop : List Nat) :
    og_tag_choice html prop =
      match findSub (strB "property=\"" ++ prop ++ [34]) html with
      | none => none
      | some m =>
        (rfindSub (strB "<meta")
            (sliceB html (windowStartOg m) (windowEndOg html m))).map
          (fun t => (m, windowStartOg m + t)) := rfl

/-- C5 as corrected: the enclosing tag chosen by `extract_og` is the LAST
occurrence of `<meta` anywhere in the search window — up to 200 bytes
before and up to 300 bytes after the `property="<name>"` match — so it may
begin after the match position; it is the last `<meta` of the window, not
the nearest one preceding the match. -/
theorem C5_amended (html prop : List Nat) (m t : Nat)
    (h : og_tag_choice html prop = some (m, t)) :
    findSub (strB "property=\"" ++ prop ++ [34]) html = some m
    ∧ windowStartOg m ≤ t
    ∧ t + 5 ≤ windowEndOg html m
    ∧ isPrefixB (strB "<meta") (html.drop t) = true
    ∧ ∀ p, p < windowEndOg html m → t < p → p + 5 ≤ windowEndOg html m →
        isPrefixB (strB "<meta") (html.drop p) = false := by
  rw [og_tag_choice_eq] at h
  cases hf : findSub (strB "property=\"" ++ prop ++ [34]) html with
  | none =>
    rw [hf] at h
    cases h
  | some m0 =>
    rw [hf] at h
    simp only [Option.map_eq_some', Prod.mk.injEq] at h
    obtain ⟨j, hj, hm0, ht⟩ := h
    subst hm0
    subst ht
    obtain ⟨hpre, hmax⟩ :=
      (rfindSub_eq_some_iff (by decide : (strB "<meta") ≠ [])).mp hj
    have hmeta5 : (strB "<meta").length = 5 := rfl
    obtain ⟨hp, -⟩ := findSub_eq_some_iff.mp hf
    have hplen : 0 < (strB "property=\"" ++ prop ++ [34]).length := by simp
    have hm_le : m0 ≤ html.length := by
      have hle := isPrefixB_length_le hp
      rw [List.length_drop] at hle
      omega
    have hws : windowStartOg m0 ≤ m0 := by
      unfold windowStartOg
      split <;> omega
    have hwe_le : windowEndOg html m0 ≤ html.length := Nat.min_le_right _ _
    have hm_we : m0 ≤ windowEndOg html m0 := le_min (by omega) hm_le
    have hws_we : windowStartOg m0 ≤ windowEndOg html m0 := le_trans hws hm_we
    have hwinlen : (sliceB html (windowStartOg m0) (windowEndOg html m0)).length
        = windowEndOg html m0 - windowStartOg m0 := by
      rw [length_sliceB]
      omega
    have hlen5 : 5 ≤ windowEndOg html m0 - windowStartOg m0 - j := by
      have hle := isPrefixB_length_le hpre
      rw [hmeta5, List.length_drop, hwinlen] at hle
      omega
    refine ⟨rfl, by omega, by omega, ?_, ?_⟩
    · have hdrop : (sliceB html (windowStartOg m0) (windowEndOg html m0)).drop j
          = (html.drop (windowStartOg m0 + j)).take
              (windowEndOg html m0 - (windowStartOg m0 + j)) := by
        rw [sliceB_drop_le html _ _ _ (by omega)]
        rfl
      rw [hdrop] at hpre
      exact isPrefixB_of_take hpre
    · intro p hplt hpt hp5
      have hmaxp := hmax (p - windowStartOg m0) (by omega)
      have hdrop2 : (sliceB html (windowStartOg m0) (windowEndOg html m0)).drop
            (p - windowStartOg m0)
          = (html.drop p).take (windowEndOg html m0 - p) := by
        rw [sliceB_drop_le html _ _ _ (by omega)]
        have heq : windowStartOg m0 + (p - windowStartOg m0) = p := by omega
        rw [heq]
        rfl
      rw [hdrop2] at hmaxp
      cases hcon : isPrefixB (strB "<meta") (html.drop p) with
      | false => rfl
      | true =>
        exfalso
        have htk := isPrefixB_take hcon
          (by omega : (strB "<meta").length ≤ windowEndOg html m0 - p)
        rw [htk] at hmaxp
        cases hmaxp

/-- Witness for C5: on the counterexample document the amended
characterization is discharged at the concrete choice, confirming the
chosen `<meta` (byte 39) sits inside the window and after the match. -/
theorem C5_amended_witness :
    windowStartOg 6 ≤ 39
      ∧ 39 + 5 ≤ windowEndOg
          (strB "<meta property=\"og:title\" content=\"A\"> <meta name=\"n\">") 6
      ∧ isPrefixB (strB "<meta")
          ((strB "<meta property=\"og:title\" content=\"A\"> <meta name=\"n\">").drop 39)
          = true :=
  have h := C5_amended
    (strB "<meta property=\"og:title\" content=\"A\"> <meta name=\"n\">")
    (strB "og:title") 6 39 (by decide)
  ⟨h.2.1, h.2.2.1, h.2.2.2.1⟩

theorem mem_of_getElem? {l : List Nat} {j a : Nat} (h : l[j]? = some a) : a ∈ l := by
  obtain ⟨hlt, rfl⟩ := List.getElem?_eq_some.mp h
  exact List.getElem_mem hlt

theorem find_scheme (s r : List Nat) (hc : (58 : Nat) ∉ s) :
    findSub (strB "://") (s ++ (strB "://" ++ r)) = some s.length := by
  apply findSub_eq_some_iff.mpr
  constructor
  · rw [drop_append_exact]
    exact isPrefixB_append_right _ (isPrefixB_refl _)
  · intro j hj
    cases hcon : isPrefixB (strB "://") ((s ++ (strB "://" ++ r)).drop j) with
    | false => rfl
    | true =>
      exfalso
      rw [(by decide : strB "://" = 58 :: [47, 47])] at hcon
      have hhead := isPrefixB_cons_head hcon
      rw [List.head?_drop, List.getElem?_append, if_pos hj] at hhead
      exact hc (mem_of_getElem? hhead)

theorem get_base_url_scheme (s r : List Nat) (hc : (58 : Nat) ∉ s) :
    ∃ m, get_base_url (s ++ (strB "://" ++ r)) = (s ++ [58]) ++ m := by
  have hdrop : (s ++ (strB "://" ++ r)).drop (s.length + 3) = r := by
    rw [drop_append_of_le (a := s) (by omega)]
    have h3 : s.length + 3 - s.length = 3 := by omega
    rw [h3, (by decide : strB "://" = [58, 47, 47])]
    rfl
  have hbu : get_base_url (s ++ (strB "://" ++ r)) =
      match findSub [47] r with
      | none => s ++ (strB "://" ++ r)
      | some path_start => (s ++ (strB "://" ++ r)).take (s.length + 3 + path_start) := by
    unfold get_base_url
    rw [find_scheme s r hc]
    show (match findSub [47] ((s ++ (strB "://" ++ r)).drop (s.length + 3)) with
      | none => s ++ (strB "://" ++ r)
      | some path_start => (s ++ (strB "://" ++ r)).take (s.length + 3 + path_start)) = _
    rw [hdrop]
  cases hj : findSub [47] r with
  | none =>
    refine ⟨[47, 47] ++ r, ?_⟩
    rw [hbu, hj]
    show s ++ (strB "://" ++ r) = (s ++ [58]) ++ ([47, 47] ++ r)
    rw [(by decide : strB "://" = [58, 47, 47])]
    simp
  | some j =>
    refine ⟨[47, 47] ++ r.take j, ?_⟩
    rw [hbu, hj]
    show (s ++ (strB "://" ++ r)).take (s.length + 3 + j)
        = (s ++ [58]) ++ ([47, 47] ++ r.take j)
    rw [take_append_of_ge (by omega)]
    have h3 : s.length + 3 + j - s.length = 3 + j := by omega
    rw [h3, (by decide : strB "://" = [58, 47, 47])]
    have h4 : ([58, 47, 47] ++ r : List Nat).take (3 + j) = [58, 47, 47] ++ r.take j := by
      rw [take_append_of_ge (by simp)]
      have h5 : 3 + j - ([58, 47, 47] : List Nat).length = j := by simp
      rw [h5]
    rw [h4]
    simp

theorem base_prefix (s r : List Nat) (hc : (58 : Nat) ∉ s) :
    isPrefixB (s ++ [58])
      (trimEndMatches 47 (get_base_url (s ++ (strB "://" ++ r)))) = true := by
  obtain ⟨m, hm⟩ := get_base_url_scheme s r hc
  rw [hm]
  obtain ⟨u, hu⟩ := trimEnd_colon_pre s m
  rw [hu]
  exact isPrefixB_append_right _ (isPrefixB_refl _)

theorem favicon_try_scheme (P base H : List Nat)
    (hbase : isPrefixB P (trimEndMatches 47 base) = true) :
    ∀ (pats : List (List Nat)) (v : List Nat), favicon_try H base pats = some v →
      startsWithB v (strB "http") = true ∨ isPrefixB P v = true := by
  intro pats
  induction pats with
  | nil =>
    intro v hv
    unfold favicon_try at hv
    injection hv with hv
    right
    rw [← hv]
    exact isPrefixB_append_right _ hbase
  | cons pat rest ih =>
    intro v hv
    unfold favicon_try at hv
    cases htp : tryPat H base pat with
    | none =>
      rw [htp] at hv
      exact ih v hv
    | some w =>
      rw [htp] at hv
      injection hv with hv
      unfold tryPat at htp
      cases hl : locate_href H pat with
      | none =>
        rw [hl] at htp
        cases htp
      | some href =>
        rw [hl] at htp
        replace htp : (if startsWithB href (strB "http") = true then some href
            else if startsWithB href (strB "//") = true then some (strB "https:" ++ href)
            else some (trimEndMatches 47 base ++ [47] ++ trimStartMatches 47 href))
            = some w := htp
        by_cases h1 : startsWithB href (strB "http") = true
        · rw [if_pos h1] at htp
          injection htp with htp
          left
          rw [← hv, ← htp]
          exact h1
        · rw [if_neg h1] at htp
          by_cases h2 : startsWithB href (strB "//") = true
          · rw [if_pos h2] at htp
            injection htp with htp
            left
            rw [← hv, ← htp]
            unfold startsWithB
            exact isPrefixB_append_right _ (by decide)
          · rw [if_neg h2] at htp
            injection htp with htp
            right
            rw [← hv, ← htp]
            exact isPrefixB_append_right _ (isPrefixB_append_right _ hbase)

/-- C3 as corrected: when the request URL has the form
`<scheme>://<rest>` with a nonempty scheme part containing no colon, every
URL placed into the `image` or `favicon` field either starts with `http`
(a value copied verbatim from the page) or begins with the request URL
scheme followed by a colon — it begins with a URI scheme.  When the request
URL contains no `://` marker this fails (see the counterexample): relative
values are then joined to the unmodified request URL. -/
theorem C3_amended (s r html : List Nat) (_hs : s ≠ []) (hc : (58 : Nat) ∉ s) :
    (∀ v, (fetch_og_metadata (s ++ (strB "://" ++ r)) html).image = some v →
        startsWithB v (strB "http") = true ∨ isPrefixB (s ++ [58]) v = true)
    ∧ (∀ v, (fetch_og_metadata (s ++ (strB "://" ++ r)) html).favicon = some v →
        startsWithB v (strB "http") = true ∨ isPrefixB (s ++ [58]) v = true) := by
  have hbase := base_prefix s r hc
  constructor
  · intro v hv
    simp only [fetch_og_metadata, Option.map_eq_some'] at hv
    obtain ⟨img, -, himg⟩ := hv
    rw [← himg]
    unfold resolve_og_image
    by_cases h1 : startsWithB img (strB "http") = true
    · rw [if_pos h1]
      exact Or.inl h1
    · rw [if_neg h1]
      by_cases h2 : startsWithB img (strB "//") = true
      · rw [if_pos h2]
        left
        unfold startsWithB
        exact isPrefixB_append_right _ (by decide)
      · rw [if_neg h2]
        right
        exact isPrefixB_append_right _ (isPrefixB_append_right _ hbase)
  · intro v hv
    simp only [fetch_og_metadata] at hv
    exact favicon_try_scheme _ _ _ hbase faviconPatterns v hv

/-- Witness for C3: the request URL `https://ex.com/p` satisfies the
amended hypotheses, and the resolved image `/i.png` becomes
`https://ex.com/i.png`, which begins with the scheme. -/
theorem C3_amended_witness :
    ((strB "https" ≠ ([] : List Nat)) ∧ (58 : Nat) ∉ strB "https")
    ∧ (startsWithB (strB "https://ex.com/i.png") (strB "http") = true
        ∨ isPrefixB (strB "https" ++ [58]) (strB "https://ex.com/i.png") = true) :=
  ⟨⟨by decide, by decide⟩,
    (C3_amended (strB "https") (strB "ex.com/p")
        (strB "<meta property=\"og:image\" content=\"/i.png\">")
        (by decide) (by decide)).1
      (strB "https://ex.com/i.png") (by decide)⟩

theorem get?_append_right {a b : List Nat} {j : Nat} (h : a.length ≤ j) :
    (a ++ b).get? j = b.get? (j - a.length) := by
  simp only [List.get?_eq_getElem?]
  rw [List.getElem?_append, if_neg (by omega)]

theorem extract_og_eq (html prop : List Nat) :
    extract_og html prop =
      match findSub (strB "property=\"" ++ prop ++ [34]) html with
      | none => none
      | some meta_start =>
        match rfindSub (strB "<meta")
            (sliceB html (windowStartOg meta_start) (windowEndOg html meta_start)) with
        | none => none
        | some tag_start =>
          match findSub [62]
              ((sliceB html (windowStartOg meta_start)
                (windowEndOg html meta_start)).drop tag_start) with
          | none => none
          | some tag_end =>
            match findSub (strB "content=\"")
                (((sliceB html (windowStartOg meta_start)
                  (windowEndOg html meta_start)).drop tag_start).take (tag_end + 1)) with
            | none => none
            | some content_start =>
              match findSub [34]
                  ((((sliceB html (windowStartOg meta_start)
                    (windowEndOg html meta_start)).drop tag_start).take
                      (tag_end + 1)).drop (content_start + 9)) with
              | none => none
              | some value_end =>
                if sliceB (((sliceB html (windowStartOg meta_start)
                      (windowEndOg html meta_start)).drop tag_start).take (tag_end + 1))
                    (content_start + 9) (content_start + 9 + value_end) ≠ [] then
                  some (html_escape_decode
                    (sliceB (((sliceB html (windowStartOg meta_start)
                        (windowEndOg html meta_start)).drop tag_start).take (tag_end + 1))
                      (content_start + 9) (content_start + 9 + value_end)))
                else none := rfl

/-- Helper for the corrected C1: value of the UNCHECKED extraction model
on a well-formed `<meta property="og:title" content="X">` tag under the
amended conditions.  The claim theorem `C1_amended` below lifts this to the
checked model, which additionally demands that the window edges fall on
character boundaries (Rust panics otherwise). -/
theorem extract_og_tag_value (pre X post : List Nat)
    (hne : X ≠ []) (hq : (34 : Nat) ∉ X) (hgt : (62 : Nat) ∉ X)
    (hlen : X.length ≤ 269)
    (hfirst : ∀ j, j < pre.length + 6 →
      isPrefixB (strB "property=\"og:title\"")
        ((pre ++ (ogTag X ++ post)).drop j) = false)
    (hafter : ∀ p, p < (pre ++ (ogTag X ++ post)).length → pre.length < p →
      isPrefixB (strB "<meta") ((pre ++ (ogTag X ++ post)).drop p) = false) :
    extract_og (pre ++ (ogTag X ++ post)) (strB "og:title")
      = some (html_escape_decode X) := by
  have hpat : strB "property=\"" ++ strB "og:title" ++ [34]
      = strB "property=\"og:title\"" := by decide
  have hoghead_len : ogHead.length = 35 := by decide
  have htag_len : (ogTag X).length = 37 + X.length := by
    unfold ogTag
    rw [List.length_append, List.length_append, hoghead_len]
    have h2 : (strB "\">").length = 2 := rfl
    omega
  have hlen_html : (pre ++ (ogTag X ++ post)).length
      = pre.length + (37 + X.length) + post.length := by
    rw [List.length_append, List.length_append, htag_len]
    omega
  have hws_le : windowStartOg (pre.length + 6) ≤ pre.length := by
    unfold windowStartOg
    split <;> omega
  have hwe_ge : pre.length + 37 + X.length
      ≤ windowEndOg (pre ++ (ogTag X ++ post)) (pre.length + 6) := by
    unfold windowEndOg
    rw [hlen_html]
    omega
  have hwe_le : windowEndOg (pre ++ (ogTag X ++ post)) (pre.length + 6)
      ≤ (pre ++ (ogTag X ++ post)).length := Nat.min_le_right _ _
  have hdrop_m : (pre ++ (ogTag X ++ post)).drop (pre.length + 6)
      = ogHead.drop 6 ++ ((X ++ strB "\">") ++ post) := by
    rw [drop_append_of_le (a := pre) (by omega)]
    have h6 : pre.length + 6 - pre.length = 6 := by omega
    rw [h6]
    unfold ogTag
    rw [List.append_assoc, List.drop_append_eq_append_drop]
    have h35 : 6 - ogHead.length = 0 := by rw [hoghead_len]
    rw [h35, List.drop_zero]
  have e1 : findSub (strB "property=\"og:title\"") (pre ++ (ogTag X ++ post))
      = some (pre.length + 6) := by
    apply findSub_eq_some_iff.mpr
    refine ⟨?_, hfirst⟩
    rw [hdrop_m]
    exact isPrefixB_append_right _ (by decide)
  have e2 : rfindSub (strB "<meta")
      (sliceB (pre ++ (ogTag X ++ post)) (windowStartOg (pre.length + 6))
        (windowEndOg (pre ++ (ogTag X ++ post)) (pre.length + 6)))
      = some (pre.length - windowStartOg (pre.length + 6)) := by
    apply (rfindSub_eq_some_iff (by decide)).mpr
    constructor
    · rw [sliceB_drop_le _ _ _ _ (by omega)]
      have heq : windowStartOg (pre.length + 6)
          + (pre.length - windowStartOg (pre.length + 6)) = pre.length := by omega
      rw [heq]
      show isPrefixB (strB "<meta")
        (((pre ++ (ogTag X ++ post)).drop pre.length).take
          (windowEndOg (pre ++ (ogTag X ++ post)) (pre.length + 6) - pre.length)) = true
      rw [drop_append_exact]
      apply isPrefixB_take
      · apply isPrefixB_append_right
        unfold ogTag
        exact isPrefixB_append_right _ (by decide)
      · have h5 : (strB "<meta").length = 5 := rfl
        omega
    · intro j2 hj2
      cases hcon : isPrefixB (strB "<meta")
          ((sliceB (pre ++ (ogTag X ++ post)) (windowStartOg (pre.length + 6))
            (windowEndOg (pre ++ (ogTag X ++ post)) (pre.length + 6))).drop j2) with
      | false => rfl
      | true =>
        exfalso
        have hwl : (sliceB (pre ++ (ogTag X ++ post)) (windowStartOg (pre.length + 6))
            (windowEndOg (pre ++ (ogTag X ++ post)) (pre.length + 6))).length
            = windowEndOg (pre ++ (ogTag X ++ post)) (pre.length + 6)
              - windowStartOg (pre.length + 6) := by
          rw [length_sliceB]
          omega
        have h5 : (strB "<meta").length = 5 := rfl
        have h5len : 5 ≤ windowEndOg (pre ++ (ogTag X ++ post)) (pre.length + 6)
            - windowStartOg (pre.length + 6) - j2 := by
          have hple := isPrefixB_length_le hcon
          rw [List.length_drop, hwl, h5] at hple
          omega
        have hdrop2 : (sliceB (pre ++ (ogTag X ++ post)) (windowStartOg (pre.length + 6))
              (windowEndOg (pre ++ (ogTag X ++ post)) (pre.length + 6))).drop j2
            = ((pre ++ (ogTag X ++ post)).drop (windowStartOg (pre.length + 6) + j2)).take
                (windowEndOg (pre ++ (ogTag X ++ post)) (pre.length + 6)
                  - (windowStartOg (pre.length + 6) + j2)) := by
          rw [sliceB_drop_le _ _ _ _ (by omega)]
          rfl
        rw [hdrop2] at hcon
        have hpre_html := isPrefixB_of_take hcon
        have hfa := hafter (windowStartOg (pre.length + 6) + j2) (by omega) (by omega)
        rw [hfa] at hpre_html
        cases hpre_html
  have e3 : (sliceB (pre ++ (ogTag X ++ post)) (windowStartOg (pre.length + 6))
        (windowEndOg (pre ++ (ogTag X ++ post)) (pre.length + 6))).drop
          (pre.length - windowStartOg (pre.length + 6))
      = ogTag X ++ post.take (windowEndOg (pre ++ (ogTag X ++ post)) (pre.length + 6)
          - pre.length - (37 + X.length)) := by
    rw [sliceB_drop_le _ _ _ _ (by omega)]
    have heq : windowStartOg (pre.length + 6)
        + (pre.length - windowStartOg (pre.length + 6)) = pre.length := by omega
    rw [heq]
    show ((pre ++ (ogTag X ++ post)).drop pre.length).take
        (windowEndOg (pre ++ (ogTag X ++ post)) (pre.length + 6) - pre.length) = _
    rw [drop_append_exact, take_append_of_ge (by rw [htag_len]; omega), htag_len]
  have e4 : ∀ Q : List Nat, findSub [62] (ogTag X ++ Q) = some (36 + X.length) := by
    intro Q
    apply findSub_eq_some_iff.mpr
    constructor
    · have hdropn : (ogTag X ++ Q).drop (36 + X.length) = [62] ++ Q := by
        rw [List.drop_append_eq_append_drop]
        have h1 : (ogTag X).drop (36 + X.length) = [62] := by
          unfold ogTag
          rw [drop_append_of_le (a := ogHead) (by rw [hoghead_len]; omega)]
          have h2 : 36 + X.length - ogHead.length = X.length + 1 := by
            rw [hoghead_len]
            omega
          rw [h2, drop_append_of_le (a := X) (by omega)]
          have h3 : X.length + 1 - X.length = 1 := by omega
          rw [h3]
          rfl
        have h4 : 36 + X.length - (ogTag X).length = 0 := by
          rw [htag_len]
          omega
        rw [h1, h4, List.drop_zero]
      rw [hdropn]
      exact isPrefixB_append_right _ (by decide)
    · intro j hj
      cases hcon : isPrefixB [62] ((ogTag X ++ Q).drop j) with
      | false => rfl
      | true =>
        exfalso
        have hget := isPrefixB_single_iff.mp hcon
        rw [get?_append_left (by rw [htag_len]; omega)] at hget
        unfold ogTag at hget
        rcases Nat.lt_or_ge j 35 with h35 | h35
        · rw [get?_append_left (by rw [hoghead_len]; omega)] at hget
          have hdec : ∀ jj, jj < 35 → ogHead.get? jj ≠ some 62 := by decide
          exact hdec j h35 hget
        · rw [get?_append_right (by rw [hoghead_len]; omega)] at hget
          rw [hoghead_len] at hget
          rcases Nat.lt_or_ge (j - 35) X.length with hX | hX
          · rw [get?_append_left hX] at hget
            exact hgt (mem_of_get? hget)
          · rw [get?_append_right hX] at hget
            have h0 : j - 35 - X.length = 0 := by omega
            rw [h0] at hget
            exact absurd hget (by decide)
  have e5 : ∀ Q : List Nat, (ogTag X ++ Q).take (36 + X.length + 1) = ogTag X := by
    intro Q
    rw [take_append_of_ge (by rw [htag_len]; omega)]
    have h0 : 36 + X.length + 1 - (ogTag X).length = 0 := by
      rw [htag_len]
      omega
    rw [h0, List.take_zero, List.append_nil]
  have e6 : findSub (strB "content=\"") (ogTag X) = some 26 := by
    apply findSub_eq_some_iff.mpr
    constructor
    · unfold ogTag
      rw [List.drop_append_eq_append_drop]
      have h1 : 26 - ogHead.length = 0 := by rw [hoghead_len]
      rw [h1, List.drop_zero]
      exact isPrefixB_append_right _ (by decide)
    · intro j hj
      unfold ogTag
      rw [List.drop_append_eq_append_drop]
      have h1 : j - ogHead.length = 0 := by
        rw [hoghead_len]
        omega
      rw [h1, List.drop_zero]
      rw [isPrefixB_append_of_le _ (by
        rw [List.length_drop, hoghead_len]
        have h9 : (strB "content=\"").length = 9 := rfl
        omega)]
      have hdec : ∀ jj, jj < 26 →
          isPrefixB (strB "content=\"") (ogHead.drop jj) = false := by decide
      exact hdec j hj
  have e7 : (ogTag X).drop 35 = X ++ strB "\">" := by
    unfold ogTag
    rw [drop_append_of_le (a := ogHead) (by rw [hoghead_len])]
    have h2 : 35 - ogHead.length = 0 := by rw [hoghead_len]
    rw [h2, List.drop_zero]
  have e8 : findSub [34] (X ++ strB "\">") = some X.length := by
    apply findSub_eq_some_iff.mpr
    constructor
    · rw [drop_append_exact]
      decide
    · intro j hj
      cases hcon : isPrefixB [34] ((X ++ strB "\">").drop j) with
      | false => rfl
      | true =>
        exfalso
        have hget := isPrefixB_single_iff.mp hcon
        rw [get?_append_left hj] at hget
        exact hq (mem_of_get? hget)
  have e9 : sliceB (ogTag X) 35 (35 + X.length) = X := by
    show ((ogTag X).drop 35).take (35 + X.length - 35) = X
    have h1 : 35 + X.length - 35 = X.length := by omega
    rw [h1, e7, List.take_left]
  rw [extract_og_eq]
  simp only [hpat, e1, e2, e3, e4, e5, e6, e7, e8, e9]
  rw [if_pos hne]

theorem og_title_find (pre X post : List Nat)
    (hfirst : ∀ j, j < pre.length + 6 →
      isPrefixB (strB "property=\"og:title\"")
        ((pre ++ (ogTag X ++ post)).drop j) = false) :
    findSub (strB "property=\"og:title\"") (pre ++ (ogTag X ++ post))
      = some (pre.length + 6) := by
  have hoghead_len : ogHead.length = 35 := by decide
  have hdrop_m : (pre ++ (ogTag X ++ post)).drop (pre.length + 6)
      = ogHead.drop 6 ++ ((X ++ strB "\">") ++ post) := by
    rw [drop_append_of_le (a := pre) (by omega)]
    have h6 : pre.length + 6 - pre.length = 6 := by omega
    rw [h6]
    unfold ogTag
    rw [List.append_assoc, List.drop_append_eq_append_drop]
    have h35 : 6 - ogHead.length = 0 := by rw [hoghead_len]
    rw [h35, List.drop_zero]
  apply findSub_eq_some_iff.mpr
  refine ⟨?_, hfirst⟩
  rw [hdrop_m]
  exact isPrefixB_append_right _ (by decide)

theorem extract_og_via_window (html prop : List Nat) :
    extract_og html prop =
      match findSub (strB "property=\"" ++ prop ++ [34]) html with
      | none => none
      | some meta_start =>
        og_from_window (sliceB html (windowStartOg meta_start)
          (windowEndOg html meta_start)) := rfl

theorem extract_og_checked_eq (html prop : List Nat) :
    extract_og_checked html prop =
      match findSub (strB "property=\"" ++ prop ++ [34]) html with
      | none => some none
      | some meta_start =>
        match sliceChecked html (windowStartOg meta_start)
            (windowEndOg html meta_start) with
        | none => none
        | some window => some (og_from_window window) := rfl

/-- C1 as corrected: `extract_og` is only guaranteed to return the decoded
content `X` of a well-formed `<meta property="og:title" content="X">` tag
when, in addition to the original conditions (`X` nonempty and quote-free,
tag within the window), `X` contains no `>`, the tag occurrence of
`property="og:title"` is the first in the document, `X` is short enough
(at most 269 bytes) for the whole tag to fit the 300-byte forward window,
no other `<meta` token starts after the tag start (in particular none
inside the search window, which extends past the match), and both window
edges fall on character boundaries (the window slice panics otherwise,
e.g. with a multi-byte character straddling `meta_start - 200`).  Under
these conditions the checked run completes and returns `Some` of `X` with
the documented escapes decoded. -/
theorem C1_amended (pre X post : List Nat)
    (hne : X ≠ []) (hq : (34 : Nat) ∉ X) (hgt : (62 : Nat) ∉ X)
    (hlen : X.length ≤ 269)
    (hfirst : ∀ j, j < pre.length + 6 →
      isPrefixB (strB "property=\"og:title\"")
        ((pre ++ (ogTag X ++ post)).drop j) = false)
    (hafter : ∀ p, p < (pre ++ (ogTag X ++ post)).length → pre.length < p →
      isPrefixB (strB "<meta") ((pre ++ (ogTag X ++ post)).drop p) = false)
    (hb1 : isCharBoundary (pre ++ (ogTag X ++ post))
      (windowStartOg (pre.length + 6)) = true)
    (hb2 : isCharBoundary (pre ++ (ogTag X ++ post))
      (windowEndOg (pre ++ (ogTag X ++ post)) (pre.length + 6)) = true) :
    extract_og_checked (pre ++ (ogTag X ++ post)) (strB "og:title")
      = some (some (html_escape_decode X)) := by
  have hpat : strB "property=\"" ++ strB "og:title" ++ [34]
      = strB "property=\"og:title\"" := by decide
  have e1 := og_title_find pre X post hfirst
  have hoghead_len : ogHead.length = 35 := by decide
  have htag_len : (ogTag X).length = 37 + X.length := by
    unfold ogTag
    rw [List.length_append, List.length_append, hoghead_len]
    have h2 : (strB "\">").length = 2 := rfl
    omega
  have hlen_html : (pre ++ (ogTag X ++ post)).length
      = pre.length + (37 + X.length) + post.length := by
    rw [List.length_append, List.length_append, htag_len]
    omega
  have hwe_le : windowEndOg (pre ++ (ogTag X ++ post)) (pre.length + 6)
      ≤ (pre ++ (ogTag X ++ post)).length := Nat.min_le_right _ _
  have hws_we : windowStartOg (pre.length + 6)
      ≤ windowEndOg (pre ++ (ogTag X ++ post)) (pre.length + 6) := by
    unfold windowStartOg windowEndOg
    rw [hlen_html]
    split <;> omega
  have hckd : sliceChecked (pre ++ (ogTag X ++ post)) (windowStartOg (pre.length + 6))
      (windowEndOg (pre ++ (ogTag X ++ post)) (pre.length + 6))
      = some (sliceB (pre ++ (ogTag X ++ post)) (windowStartOg (pre.length + 6))
          (windowEndOg (pre ++ (ogTag X ++ post)) (pre.length + 6))) := by
    unfold sliceChecked
    rw [if_pos]
    exact ⟨hws_we, hwe_le, hb1, hb2⟩
  have hval := extract_og_tag_value pre X post hne hq hgt hlen hfirst hafter
  rw [extract_og_via_window] at hval
  simp only [hpat, e1] at hval
  simp only [extract_og_checked_eq, hpat, e1, hckd, hval]

/-- Witness for C1: with `pre` and `post` empty and `X = Hi` every amended
hypothesis holds (the window edges 0 and 39 are character boundaries) and
the checked extraction completes with the decoded content. -/
theorem C1_amended_witness :
    extract_og_checked ([] ++ (ogTag (strB "Hi") ++ [])) (strB "og:title")
      = some (some (html_escape_decode (strB "Hi"))) :=
  C1_amended [] (strB "Hi") [] (by decide) (by decide) (by decide) (by decide)
    (by decide) (by decide) (by decide) (by decide)
